import Mathlib

/-!
# Verification of the urlverify library

Shallow embedding of the `urlverify` Go package: the candidate matcher
(the package-level regular expression
`https?://[^\s]+|(?:\[[0-9a-fA-F:]+\]|\d{1,3}(?:\.\d{1,3}){3}|[a-zA-Z0-9][-a-zA-Z0-9]*(?:\.[a-zA-Z0-9][-a-zA-Z0-9]*)+)(?::\d+)?(?:/[^\s]*)?`
together with `FindAllString`), the classifier `ValidateDomain` /
`validateDomainName`, and `ExtractAll`.

External library collaborators (the URI parser `net/url.Parse`, the IP
recognizer `net.ParseIP`, and the public-suffix lookup
`publicsuffix.PublicSuffix`) are passed to the classifier as an explicit
record of functions (`Collab`); the classifier's own control flow is a
line-by-line translation of the Go source.  A concrete instance `goLib`,
modelled from the spec's description of those collaborators, is used for
evaluating the development on concrete inputs.
-/

/-! ## Character classes used by the regular expression

RE2's `\s` is the set `[\t\n\f\r ]`; `\d` is `[0-9]`; the other classes are
spelled out in the pattern itself.  All classes are ASCII-only except the
complement class `[^\s]`.
-/

/-- `\s` of RE2: tab, newline, form feed, carriage return, space. -/
def isWsChar (c : Char) : Bool :=
  c = ' ' || c = '\t' || c = '\n' || c = '\x0c' || c = '\r'

/-- `\d` of RE2: ASCII decimal digit. -/
def isDigitChar (c : Char) : Bool :=
  '0' ≤ c && c ≤ '9'

/-- ASCII letter, as in the class `[a-zA-Z]`. -/
def isAlphaChar (c : Char) : Bool :=
  ('a' ≤ c && c ≤ 'z') || ('A' ≤ c && c ≤ 'Z')

/-- The class `[a-zA-Z0-9]` (label-initial characters). -/
def isAlnumChar (c : Char) : Bool :=
  isAlphaChar c || isDigitChar c

/-- The class `[-a-zA-Z0-9]` (label-interior characters). -/
def isHostChar (c : Char) : Bool :=
  isAlnumChar c || c = '-'

/-- The class `[0-9a-fA-F]` (hex digits). -/
def isHexChar (c : Char) : Bool :=
  isDigitChar c || ('a' ≤ c && c ≤ 'f') || ('A' ≤ c && c ≤ 'F')

/-- The class `[0-9a-fA-F:]` used inside the bracketed IPv6 alternative. -/
def isHexColonChar (c : Char) : Bool :=
  isHexChar c || c = ':'

/-! ## The candidate matcher

Each function below embeds one piece of the regular expression, returning
`some (matched, rest)` on success with `matched ++ rest` equal to the input.
Greedy quantifiers with nothing mandatory after them are maximal munches;
`\d{1,3}\.` is a maximal munch of at most three digits that must be followed
by a literal dot (longer digit runs make every backtracking width fail, since
the character after one to three digits is then again a digit).
-/

/-- The negation of the whitespace class, `[^\s]`. -/
def notWs (c : Char) : Bool := !isWsChar c

/-- The literal `https://`. -/
def schemeHttps : List Char := ['h', 't', 't', 'p', 's', ':', '/', '/']

/-- The literal `http://`. -/
def schemeHttp : List Char := ['h', 't', 't', 'p', ':', '/', '/']

/-- Strip a literal expected sequence from the front of the input. -/
def dropPre : List Char → List Char → Option (List Char)
  | [], cs => some cs
  | _ :: _, [] => none
  | p :: ps, c :: cs => if c = p then dropPre ps cs else none

/-- The alternative `https?://[^\s]+`: a literal scheme (the `s?` is greedy,
so the longer literal is tried first) followed by a nonempty maximal run of
non-whitespace characters. -/
def matchScheme (cs : List Char) : Option (List Char × List Char) :=
  match dropPre schemeHttps cs with
  | some rest =>
    if (rest.takeWhile notWs).isEmpty then none
    else some (schemeHttps ++ rest.takeWhile notWs, rest.dropWhile notWs)
  | none =>
    match dropPre schemeHttp cs with
    | some rest =>
      if (rest.takeWhile notWs).isEmpty then none
      else some (schemeHttp ++ rest.takeWhile notWs, rest.dropWhile notWs)
    | none => none

/-- The alternative `\[[0-9a-fA-F:]+\]`: an opening bracket, a nonempty
maximal run of hex-or-colon characters, then a closing bracket (shorter
backtracking widths end on a hex-or-colon character, never on `]`). -/
def matchBracket (cs : List Char) : Option (List Char × List Char) :=
  match cs with
  | [] => none
  | c :: rest =>
    if c = '[' then
      if (rest.takeWhile isHexColonChar).isEmpty then none
      else
        match rest.dropWhile isHexColonChar with
        | [] => none
        | d :: rest2 =>
          if d = ']' then
            some (c :: (rest.takeWhile isHexColonChar ++ [d]), rest2)
          else none
    else none

/-- Greedy `\d{1,3}`: the first one-to-three characters of a nonempty
maximal digit run. -/
def take3Digits (cs : List Char) : Option (List Char × List Char) :=
  if (cs.takeWhile isDigitChar).isEmpty then none
  else some ((cs.takeWhile isDigitChar).take 3,
    (cs.takeWhile isDigitChar).drop 3 ++ cs.dropWhile isDigitChar)

/-- `\d{1,3}\.`: one to three digits followed by a literal dot (a digit run
longer than three makes every backtracking width fail, since the character
after one to three digits is then again a digit). -/
def matchD13Dot (cs : List Char) : Option (List Char × List Char) :=
  match take3Digits cs with
  | some (ds, rest) =>
    match rest with
    | r0 :: r => if r0 = '.' then some (ds ++ [r0], r) else none
    | [] => none
  | none => none

/-- The alternative `\d{1,3}(?:\.\d{1,3}){3}`: a dotted quad. -/
def matchIPv4 (cs : List Char) : Option (List Char × List Char) :=
  match matchD13Dot cs with
  | none => none
  | some (a, r1) =>
    match matchD13Dot r1 with
    | none => none
    | some (b, r2) =>
      match matchD13Dot r2 with
      | none => none
      | some (c, r3) =>
        match take3Digits r3 with
        | none => none
        | some (d, r4) => some (a ++ (b ++ (c ++ d)), r4)

/-- One iteration of `(?:\.[a-zA-Z0-9][-a-zA-Z0-9]*)`: a dot, a
label-initial character, then a maximal run of label-interior characters. -/
def matchDotLabel (cs : List Char) : Option (List Char × List Char) :=
  match cs with
  | a :: b :: rest =>
    if a = '.' then
      if isAlnumChar b then
        some (a :: b :: rest.takeWhile isHostChar, rest.dropWhile isHostChar)
      else none
    else none
  | _ => none

/-- Greedy `(?:\.[a-zA-Z0-9][-a-zA-Z0-9]*)*`: as many dot-label groups as
possible.  Each successful iteration consumes at least two characters, so
fuel equal to the input length is always sufficient. -/
def matchDotLabels : Nat → List Char → List Char × List Char
  | 0, cs => ([], cs)
  | n + 1, cs =>
    match matchDotLabel cs with
    | none => ([], cs)
    | some (d, rest) =>
      (d ++ (matchDotLabels n rest).1, (matchDotLabels n rest).2)

/-- The alternative `[a-zA-Z0-9][-a-zA-Z0-9]*(?:\.[a-zA-Z0-9][-a-zA-Z0-9]*)+`:
a first label followed by at least one dot-label group. -/
def matchLabels (cs : List Char) : Option (List Char × List Char) :=
  match cs with
  | [] => none
  | c :: rest =>
    if isAlnumChar c then
      match matchDotLabel (rest.dropWhile isHostChar) with
      | none => none
      | some (d, r2) =>
        some (c :: (rest.takeWhile isHostChar ++ (d ++ (matchDotLabels r2.length r2).1)),
          (matchDotLabels r2.length r2).2)
    else none

/-- The optional group `(?::\d+)?`: a colon followed by a nonempty maximal
digit run, or nothing. -/
def matchPort (cs : List Char) : List Char × List Char :=
  match cs with
  | [] => ([], [])
  | c :: rest =>
    if c = ':' then
      if (rest.takeWhile isDigitChar).isEmpty then ([], c :: rest)
      else (c :: rest.takeWhile isDigitChar, rest.dropWhile isDigitChar)
    else ([], c :: rest)

/-- The optional group `(?:/[^\s]*)?`: a slash followed by a possibly empty
maximal run of non-whitespace characters, or nothing. -/
def matchPath (cs : List Char) : List Char × List Char :=
  match cs with
  | [] => ([], [])
  | c :: rest =>
    if c = '/' then (c :: rest.takeWhile notWs, rest.dropWhile notWs)
    else ([], c :: rest)

/-- Which alternative of the regular expression produced a match. -/
inductive MatchKind where
  | scheme
  | ipv6
  | ipv4
  | labels
deriving DecidableEq, Repr

/-- The host-expression group: its three alternatives in the order they
appear in the pattern (leftmost-first alternation: the first alternative
that succeeds wins, and the optional groups that follow can never fail, so
no backtracking across alternatives occurs). -/
def matchCore (cs : List Char) : Option (MatchKind × List Char × List Char) :=
  match matchBracket cs with
  | some (m, rest) => some (.ipv6, m, rest)
  | none =>
    match matchIPv4 cs with
    | some (m, rest) => some (.ipv4, m, rest)
    | none =>
      match matchLabels cs with
      | some (m, rest) => some (.labels, m, rest)
      | none => none

/-- A full match anchored at the current position: the scheme-prefixed
alternative first, otherwise a host expression followed by the optional
port and path groups. -/
def matchAt (cs : List Char) : Option (MatchKind × List Char × List Char) :=
  match matchScheme cs with
  | some (m, rest) => some (.scheme, m, rest)
  | none =>
    match matchCore cs with
    | none => none
    | some (k, m, rest) =>
      some (k, m ++ ((matchPort rest).1 ++ (matchPath (matchPort rest).2).1),
        (matchPath (matchPort rest).2).2)

/-- Scan left to right, emitting non-overlapping matches and resuming after
each match, exactly as `Regexp.FindAllString(text, -1)` does.  Every match is
nonempty, so fuel equal to the input length is always sufficient. -/
def scanAux : Nat → List Char → List (MatchKind × List Char)
  | 0, _ => []
  | n + 1, cs =>
    match matchAt cs with
    | some (k, m, rest) => (k, m) :: scanAux n rest
    | none =>
      match cs with
      | [] => []
      | _ :: rest => scanAux n rest

/-- All matches of the pattern in the text, tagged with the alternative that
produced them. -/
def scanTagged (text : String) : List (MatchKind × List Char) :=
  scanAux text.data.length text.data

/-- `urlRegex.FindAllString(text, -1)`. -/
def findAllStrings (text : String) : List String :=
  (scanTagged text).map fun km => ⟨km.2⟩

/-! ## External collaborators

The spec treats the URI parser, the IP-literal recognizer and the
public-suffix lookup as external library primitives.  The classifier below is
parameterized by a record of these three functions, so every structural
theorem about the classifier holds for every possible collaborator
behaviour; a concrete instance (`goLib`) modelled from the spec's contracts
is provided for evaluating concrete inputs.
-/

/-- The structurally parsed form of a URL: scheme, authority host (possibly
with brackets and port), and the remainder (path, query, fragment). -/
structure GoURL where
  scheme : String
  host : String
  path : String
deriving DecidableEq, Repr

/-- Split a list at every occurrence of the separator (the model of
`strings.Split` for a one-character separator; never returns an empty
list). -/
def splitOnChar (sep : Char) : List Char → List (List Char)
  | [] => [[]]
  | c :: rest =>
    let r := splitOnChar sep rest
    if c = sep then [] :: r
    else
      match r with
      | h :: t => (c :: h) :: t
      | [] => [[c]]

/-- Modelled from the spec: the URI parser's host/port split used by
`Hostname()` - the part after the last colon is removed when it is a valid
optional (all-digit) port. -/
def stripPort (h : List Char) : List Char :=
  let rev := h.reverse
  let afterRev := rev.takeWhile fun c => c ≠ ':'
  match rev.dropWhile (fun c => c ≠ ':') with
  | ':' :: beforeRev =>
    if afterRev.all isDigitChar then beforeRev.reverse else h
  | _ => h

/-- Modelled from the spec: `Hostname()` - the host without port and without
the square brackets of an IPv6 literal. -/
def hostnameOf (host : List Char) : List Char :=
  let h := stripPort host
  match h with
  | '[' :: rest =>
    match rest.getLast? with
    | some ']' => rest.dropLast
    | _ => '[' :: rest
  | _ => h

/-- The hostname (no port, no brackets) of a parsed URL. -/
def GoURL.hostname (u : GoURL) : String :=
  ⟨hostnameOf u.host.data⟩

/-- ASCII control characters (rejected outright by the URI parser). -/
def isCtlChar (c : Char) : Bool :=
  c.toNat < 32 || c.toNat = 127

/-- Characters allowed after the first character of a URI scheme. -/
def isSchemeTailChar (c : Char) : Bool :=
  isAlnumChar c || c = '+' || c = '-' || c = '.'

/-- Modelled from the spec: scheme recognition of the URI parser.  A scheme
is a leading ASCII letter followed by letters, digits, `+`, `-` or `.`,
terminated by a colon; it is returned lowercased.  Anything else means the
input has no scheme. -/
def getScheme (cs : List Char) : Option (List Char × List Char) :=
  match cs with
  | [] => none
  | c :: rest =>
    if isAlphaChar c then
      let run := rest.takeWhile isSchemeTailChar
      match rest.dropWhile isSchemeTailChar with
      | ':' :: r2 => some (c.toLower :: run.map Char.toLower, r2)
      | _ => none
    else none

/-- Characters that make the URI parser reject a host. -/
def isBadHostChar (c : Char) : Bool :=
  isWsChar c || c = '<' || c = '>' || c = '"'

/-- Modelled from the spec: the authority's host is what follows the last
`@` (userinfo is discarded). -/
def hostFromAuthority (auth : List Char) : List Char :=
  if auth.contains '@' then (auth.reverse.takeWhile fun c => c ≠ '@').reverse
  else auth

/-- Modelled from the spec: the generic URI parser collaborator,
`parse(text) -> {scheme, host, port, path} | parseError`.  Control
characters are rejected; a leading colon means a missing scheme; an
authority is present exactly when the remainder after the scheme starts
with `//` and extends to the next `/`, `?` or `#`; without an authority the
host is empty and the whole remainder is kept as the path. -/
def parseURL (s : String) : Except String GoURL :=
  let cs := s.data
  if cs.any isCtlChar then
    .error "net/url: invalid control character in URL"
  else if cs.head? = some ':' then
    .error "missing protocol scheme"
  else
    let sr :=
      match getScheme cs with
      | some p => p
      | none => ([], cs)
    match sr.2 with
    | '/' :: '/' :: r2 =>
      let auth := r2.takeWhile fun c => c ≠ '/' && c ≠ '?' && c ≠ '#'
      let rest := r2.dropWhile fun c => c ≠ '/' && c ≠ '?' && c ≠ '#'
      let host := hostFromAuthority auth
      if host.any isBadHostChar then
        .error "invalid character in host name"
      else .ok ⟨⟨sr.1⟩, ⟨host⟩, ⟨rest⟩⟩
    | _ => .ok ⟨⟨sr.1⟩, "", ⟨sr.2⟩⟩

/-- Numeric value of a decimal digit run. -/
def digitsToNat (l : List Char) : Nat :=
  l.foldl (fun n c => n * 10 + (c.toNat - 48)) 0

/-- A valid dotted-quad field: one to three digits, no leading zero (except
the field `0` itself), value at most 255. -/
def validQuadPart (l : List Char) : Bool :=
  !l.isEmpty && l.all isDigitChar && l.length ≤ 3 &&
    (!(l.head? = some '0') || l = ['0']) && digitsToNat l ≤ 255

/-- Join pieces with a separator character. -/
def joinSep (sep : Char) : List (List Char) → List Char
  | [] => []
  | [x] => x
  | x :: y :: t => x ++ sep :: joinSep sep (y :: t)

/-- Modelled from the spec: the IPv4 side of the IP-literal recognizer,
returning the canonical dotted-decimal form. -/
def parseIPv4 (s : String) : Option String :=
  let parts := splitOnChar '.' s.data
  if parts.length = 4 && parts.all validQuadPart then
    some ⟨joinSep '.' (parts.map fun p => Nat.toDigits 10 (digitsToNat p))⟩
  else none

/-- Numeric value of a hex digit. -/
def hexDigitVal (c : Char) : Nat :=
  if isDigitChar c then c.toNat - 48
  else if 'a' ≤ c && c ≤ 'f' then c.toNat - 87
  else c.toNat - 55

/-- Numeric value of a hex digit run. -/
def hexToNat (l : List Char) : Nat :=
  l.foldl (fun n c => n * 16 + hexDigitVal c) 0

/-- A valid IPv6 group: one to four hex digits. -/
def validHexGroup (l : List Char) : Bool :=
  !l.isEmpty && l.length ≤ 4 && l.all isHexChar

/-- Split at the first `::`, when present. -/
def splitDoubleColon : List Char → Option (List Char × List Char)
  | [] => none
  | ':' :: ':' :: rest => some ([], rest)
  | c :: rest =>
    match splitDoubleColon rest with
    | some p => some (c :: p.1, p.2)
    | none => none

/-- Whether the list still contains a `::`. -/
def hasDoubleColon : List Char → Bool
  | [] => false
  | ':' :: ':' :: _ => true
  | _ :: rest => hasDoubleColon rest

/-- Parse a colon-separated run of hex groups (empty input means no
groups). -/
def groupsOf (cs : List Char) : Option (List Nat) :=
  if cs.isEmpty then some []
  else
    let ps := splitOnChar ':' cs
    if ps.all validHexGroup then some (ps.map hexToNat) else none

/-- Length of the zero run at the head. -/
def zeroRunAt : List Nat → Nat
  | 0 :: rest => 1 + zeroRunAt rest
  | _ => 0

/-- Leftmost longest zero run, as (start index, length). -/
def bestRunFrom : List Nat → Nat → Nat × Nat
  | [], _ => (0, 0)
  | g :: rest, i =>
    let here := zeroRunAt (g :: rest)
    let b := bestRunFrom rest (i + 1)
    if here ≥ b.2 then (i, here) else b

/-- Lowercase hex rendering of a group. -/
def hexRender (n : Nat) : List Char :=
  Nat.toDigits 16 n

/-- Canonical textual form of eight 16-bit groups: the leftmost longest run
of at least two zero groups is compressed to `::`. -/
def ipv6Render (gs : List Nat) : List Char :=
  let b := bestRunFrom gs 0
  if b.2 ≥ 2 then
    joinSep ':' ((gs.take b.1).map hexRender) ++
      (':' :: ':' :: joinSep ':' ((gs.drop (b.1 + b.2)).map hexRender))
  else joinSep ':' (gs.map hexRender)

/-- Modelled from the spec: the IPv6 side of the IP-literal recognizer -
colon-separated hex groups with at most one `::` abbreviation expanding to
the missing zero groups, eight groups in total, rendered canonically. -/
def parseIPv6 (s : String) : Option String :=
  let cs := s.data
  if !cs.contains ':' then none
  else
    match splitDoubleColon cs with
    | none =>
      match groupsOf cs with
      | some gs => if gs.length = 8 then some ⟨ipv6Render gs⟩ else none
      | none => none
    | some (l, r) =>
      if hasDoubleColon r then none
      else
        match groupsOf l, groupsOf r with
        | some gl, some gr =>
          if gl.length + gr.length ≤ 7 then
            some ⟨ipv6Render
              (gl ++ (List.replicate (8 - gl.length - gr.length) 0 ++ gr))⟩
          else none
        | _, _ => none

/-- Modelled from the spec: the IP-literal recognizer collaborator,
`parseIP(text) -> IPAddress | none`, composed with the canonical textual
rendering of the address. -/
def parseIPString (s : String) : Option String :=
  match parseIPv4 s with
  | some c => some c
  | none => parseIPv6 s

/-- A small representative rule table standing for the public suffix list:
ICANN-delegated suffixes and privately registered (non-ICANN) effective
TLDs. -/
def pslRules : List (String × Bool) :=
  [("com", true), ("net", true), ("org", true), ("io", true),
   ("uk", true), ("co.uk", true),
   ("dyndns.org", false), ("no-ip.org", false), ("github.io", false)]

/-- Whether the head list is a prefix of the second list. -/
def isPreL : List Char → List Char → Bool
  | [], _ => true
  | _ :: _, [] => false
  | p :: ps, c :: cs => p == c && isPreL ps cs

/-- Whether the first list is a suffix of the second. -/
def isSufL (suf cs : List Char) : Bool :=
  isPreL suf.reverse cs.reverse

/-- A public-suffix rule matches a host when it equals the host or is a
dot-separated suffix of it. -/
def ruleMatches (rule host : String) : Bool :=
  host == rule || isSufL ('.' :: rule.data) host.data

/-- Modelled from the spec: the public-suffix lookup collaborator,
`longestPublicSuffix(host) -> (suffix, isICANN)` - the longest matching rule
wins; a host matching no rule at all falls back to its last label, reported
as non-ICANN. -/
def publicSuffixLookup (host : String) : String × Bool :=
  let best := pslRules.foldl
    (fun (acc : Option (String × Bool)) rb =>
      if ruleMatches rb.1 host then
        match acc with
        | none => some rb
        | some ab =>
          if rb.1.data.length > ab.1.data.length then some rb else acc
      else acc) none
  match best with
  | some p => p
  | none => (⟨(splitOnChar '.' host.data).getLastD []⟩, false)

/-- The record of external collaborators the classifier consumes. -/
structure Collab where
  parse : String → Except String GoURL
  parseIP : String → Option String
  publicSuffix : String → String × Bool

/-- The concrete collaborator instance modelled from the spec, used to run
the classifier on concrete inputs. -/
def goLib : Collab :=
  ⟨parseURL, parseIPString, publicSuffixLookup⟩

/-! ## The domain classifier

Line-by-line translation of `ValidateDomain` and `validateDomainName` from
`urlverify.go`, parameterized by the collaborator record.
-/

/-- `URLType` from the source: the classification category. -/
inductive URLType where
  | invalid
  | ip
  | icann
  | nonICANN
deriving DecidableEq, Repr

/-- `ValidationResult` from the source.  Go's zero values for fields left
unset in a composite literal are the empty string for `TLD` and `nil`
(here `none`) for `URL`; the field `Type` is called `Typ` because `Type` is
reserved in Lean. -/
structure ValidationResult where
  Valid : Bool
  Reason : String
  Typ : URLType
  TLD : String
  URL : Option GoURL
deriving DecidableEq, Repr

/-- Lines 85-97 of `ValidateDomain`: parse the candidate as-is; on a parse
error or an empty host, re-parse with a default `http://` scheme
prepended. -/
def parseWithRetry (lib : Collab) (raw : String) : Except String GoURL :=
  match lib.parse raw with
  | .ok u => if u.host = "" then lib.parse ("http://" ++ raw) else .ok u
  | .error _ => lib.parse ("http://" ++ raw)

/-- `validateDomainName` from the source: the suffix walk.  `strings.Split`
on `"."` followed by taking the final element is `splitOnChar '.'` followed
by `getLastD` (the split of a nonempty string is never the empty list). -/
def validateDomainName (lib : Collab) (u : GoURL) : ValidationResult :=
  if u.hostname = "" then
    ⟨false, "empty hostname", .invalid, "", none⟩
  else if !u.hostname.data.contains '.' then
    ⟨false, "no valid TLD found", .invalid, "", none⟩
  else
    if (lib.publicSuffix u.hostname).1 = "" then
      ⟨false, "no valid TLD found", .invalid, "", none⟩
    else if (lib.publicSuffix u.hostname).2 then
      ⟨true, "valid ICANN domain", .icann, (lib.publicSuffix u.hostname).1, some u⟩
    else if (lib.publicSuffix u.hostname).1.data.contains '.' then
      if (lib.publicSuffix ("test." ++
          (⟨(splitOnChar '.' (lib.publicSuffix u.hostname).1.data).getLastD []⟩ :
            String))).2 then
        ⟨true, "valid domain built on ICANN TLD", .nonICANN,
          (lib.publicSuffix u.hostname).1, some u⟩
      else
        ⟨false, "invalid or non-ICANN TLD", .invalid,
          (lib.publicSuffix u.hostname).1, none⟩
    else
      ⟨false, "invalid or non-ICANN TLD", .invalid,
        (lib.publicSuffix u.hostname).1, none⟩

/-- `ValidateDomain` from the source: parse (with retry), recognise IP
literals, otherwise fall through to the suffix walk. -/
def ValidateDomain (lib : Collab) (raw : String) : ValidationResult :=
  match parseWithRetry lib raw with
  | .error e => ⟨false, "parse error: " ++ e, .invalid, "", none⟩
  | .ok u =>
    match lib.parseIP u.hostname with
    | some ipStr => ⟨true, "valid IP address", .ip, ipStr, some u⟩
    | none => validateDomainName lib u

/-! ## Extraction -/

/-- The cutset of `strings.TrimRight(raw, ".,)")`. -/
def isTrimChar (c : Char) : Bool :=
  c == '.' || c == ',' || c == ')'

/-- `strings.TrimRight(raw, ".,)")` on the character list. -/
def trimPunctL (cs : List Char) : List Char :=
  (cs.reverse.dropWhile isTrimChar).reverse

/-- `strings.TrimRight(raw, ".,)")`. -/
def trimPunct (s : String) : String :=
  ⟨trimPunctL s.data⟩

/-- `ExtractAll` from the source: find all matches, trim trailing
punctuation, keep those the classifier judges valid, in order. -/
def ExtractAll (lib : Collab) (text : String) : List String :=
  (findAllStrings text).foldl
    (fun acc raw0 =>
      if (ValidateDomain lib (trimPunct raw0)).Valid then
        acc ++ [trimPunct raw0]
      else acc)
    []

/-! ## Structural lemmas about the matcher

Every matching function returns a decomposition of its input: the matched
piece followed by the rest, with the matched piece nonempty.
-/

theorem ne_nil_of_append_left {α : Type} {l m : List α} (h : l ≠ []) :
    l ++ m ≠ [] := by
  cases l with
  | nil => exact absurd rfl h
  | cons a t => simp

theorem all_takeWhile (p : Char → Bool) :
    ∀ l : List Char, (l.takeWhile p).all p = true := by
  intro l
  induction l with
  | nil => rfl
  | cons a t ih =>
    by_cases h : p a = true
    · simp [List.takeWhile_cons, h, ih]
    · simp [List.takeWhile_cons, h]

theorem dropWhile_idem (p : Char → Bool) :
    ∀ l : List Char, (l.dropWhile p).dropWhile p = l.dropWhile p := by
  intro l
  induction l with
  | nil => rfl
  | cons a t ih =>
    by_cases h : p a = true
    · simpa [List.dropWhile_cons, h] using ih
    · simp [List.dropWhile_cons, h]

theorem dropPre_eq :
    ∀ (pre cs rest : List Char), dropPre pre cs = some rest → cs = pre ++ rest := by
  intro pre
  induction pre with
  | nil =>
    intro cs rest h
    simp only [dropPre, Option.some.injEq] at h
    simp [h]
  | cons p ps ih =>
    intro cs rest h
    cases cs with
    | nil => simp [dropPre] at h
    | cons c cs' =>
      simp only [dropPre] at h
      split at h
      · next hc => subst hc; simpa using ih cs' rest h
      · exact absurd h (by simp)

theorem isPreL_append : ∀ (l m : List Char), isPreL l (l ++ m) = true := by
  intro l m
  induction l with
  | nil => rfl
  | cons c cs ih => simpa [isPreL] using ih

theorem matchScheme_split {cs m rest : List Char}
    (h : matchScheme cs = some (m, rest)) :
    cs = m ++ rest ∧ m ≠ [] ∧
      (isPreL schemeHttp m = true ∨ isPreL schemeHttps m = true) := by
  unfold matchScheme at h
  split at h
  · next r0 heq =>
    split at h
    · exact absurd h (by simp)
    · simp only [Option.some.injEq, Prod.mk.injEq] at h
      obtain ⟨hm, hr⟩ := h
      subst hm; subst hr
      refine ⟨?_, ne_nil_of_append_left (by decide),
        Or.inr (isPreL_append _ _)⟩
      rw [dropPre_eq _ _ _ heq, List.append_assoc,
        List.takeWhile_append_dropWhile]
  · next heq =>
    split at h
    · next r0 heq2 =>
      split at h
      · exact absurd h (by simp)
      · simp only [Option.some.injEq, Prod.mk.injEq] at h
        obtain ⟨hm, hr⟩ := h
        subst hm; subst hr
        refine ⟨?_, ne_nil_of_append_left (by decide),
          Or.inl (isPreL_append _ _)⟩
        rw [dropPre_eq _ _ _ heq2, List.append_assoc,
          List.takeWhile_append_dropWhile]
    · exact absurd h (by simp)

theorem matchBracket_split {cs m rest : List Char}
    (h : matchBracket cs = some (m, rest)) :
    cs = m ++ rest ∧ m ≠ [] := by
  unfold matchBracket at h
  split at h
  · exact absurd h (by simp)
  · next c rest0 =>
    split at h
    · split at h
      · exact absurd h (by simp)
      · split at h
        · exact absurd h (by simp)
        · next d rest2 heq =>
          split at h
          · simp only [Option.some.injEq, Prod.mk.injEq] at h
            obtain ⟨hm, hr⟩ := h
            subst hm; subst hr
            refine ⟨?_, by simp⟩
            simp only [List.cons_append, List.append_assoc,
              List.singleton_append, List.nil_append, List.cons.injEq, true_and]
            rw [← heq, List.takeWhile_append_dropWhile]
          · exact absurd h (by simp)
    · exact absurd h (by simp)

theorem take3Digits_split {cs m rest : List Char}
    (h : take3Digits cs = some (m, rest)) :
    cs = m ++ rest ∧ m ≠ [] := by
  unfold take3Digits at h
  split at h
  · exact absurd h (by simp)
  · next hne =>
    simp only [Option.some.injEq, Prod.mk.injEq] at h
    obtain ⟨hm, hr⟩ := h
    subst hm; subst hr
    constructor
    · rw [← List.append_assoc, List.take_append_drop,
        List.takeWhile_append_dropWhile]
    · cases hq : cs.takeWhile isDigitChar with
      | nil => rw [hq] at hne; simp at hne
      | cons a t => simp

theorem matchD13Dot_split {cs m rest : List Char}
    (h : matchD13Dot cs = some (m, rest)) :
    cs = m ++ rest ∧ m ≠ [] := by
  unfold matchD13Dot at h
  split at h
  · next ds r1 heq =>
    split at h
    · next r0 r =>
      split at h
      · simp only [Option.some.injEq, Prod.mk.injEq] at h
        obtain ⟨hm, hr⟩ := h
        subst hm; subst hr
        obtain ⟨hsplit, hne⟩ := take3Digits_split heq
        constructor
        · rw [hsplit]; simp
        · exact ne_nil_of_append_left hne
      · exact absurd h (by simp)
    · exact absurd h (by simp)
  · exact absurd h (by simp)

theorem matchIPv4_split {cs m rest : List Char}
    (h : matchIPv4 cs = some (m, rest)) :
    cs = m ++ rest ∧ m ≠ [] := by
  unfold matchIPv4 at h
  cases h1 : matchD13Dot cs with
  | none => simp [h1] at h
  | some p1 =>
    obtain ⟨a, r1⟩ := p1
    simp only [h1] at h
    cases h2 : matchD13Dot r1 with
    | none => simp [h2] at h
    | some p2 =>
      obtain ⟨b, r2⟩ := p2
      simp only [h2] at h
      cases h3 : matchD13Dot r2 with
      | none => simp [h3] at h
      | some p3 =>
        obtain ⟨c, r3⟩ := p3
        simp only [h3] at h
        cases h4 : take3Digits r3 with
        | none => simp [h4] at h
        | some p4 =>
          obtain ⟨d, r4⟩ := p4
          simp only [h4, Option.some.injEq, Prod.mk.injEq] at h
          obtain ⟨hm, hr⟩ := h
          subst hm; subst hr
          obtain ⟨e1, n1⟩ := matchD13Dot_split h1
          obtain ⟨e2, _⟩ := matchD13Dot_split h2
          obtain ⟨e3, _⟩ := matchD13Dot_split h3
          obtain ⟨e4, _⟩ := take3Digits_split h4
          constructor
          · rw [e1, e2, e3, e4]; simp [List.append_assoc]
          · exact ne_nil_of_append_left n1

theorem matchDotLabel_split {cs m rest : List Char}
    (h : matchDotLabel cs = some (m, rest)) :
    cs = m ++ rest ∧ m ≠ [] := by
  unfold matchDotLabel at h
  split at h
  · next a b rest0 =>
    split at h
    · split at h
      · simp only [Option.some.injEq, Prod.mk.injEq] at h
        obtain ⟨hm, hr⟩ := h
        subst hm; subst hr
        refine ⟨?_, by simp⟩
        conv_lhs => rw [← List.takeWhile_append_dropWhile isHostChar rest0]
        simp
      · exact absurd h (by simp)
    · exact absurd h (by simp)
  · exact absurd h (by simp)

theorem matchDotLabels_split :
    ∀ (fuel : Nat) (cs : List Char),
      (matchDotLabels fuel cs).1 ++ (matchDotLabels fuel cs).2 = cs := by
  intro fuel
  induction fuel with
  | zero => intro cs; rfl
  | succ n ih =>
    intro cs
    cases h1 : matchDotLabel cs with
    | none => simp [matchDotLabels, h1]
    | some p =>
      obtain ⟨d, rest⟩ := p
      simp only [matchDotLabels, h1]
      rw [List.append_assoc, ih rest]
      exact (matchDotLabel_split h1).1.symm

theorem matchLabels_split {cs m rest : List Char}
    (h : matchLabels cs = some (m, rest)) :
    cs = m ++ rest ∧ m ≠ [] := by
  unfold matchLabels at h
  split at h
  · exact absurd h (by simp)
  · next c rest0 =>
    split at h
    · split at h
      · exact absurd h (by simp)
      · next d r2 heq =>
        simp only [Option.some.injEq, Prod.mk.injEq] at h
        obtain ⟨hm, hr⟩ := h
        subst hm; subst hr
        refine ⟨?_, by simp⟩
        conv_lhs => rw [← List.takeWhile_append_dropWhile isHostChar rest0,
          (matchDotLabel_split heq).1]
        conv_lhs => rw [← matchDotLabels_split r2.length r2]
        simp
    · exact absurd h (by simp)

theorem matchPort_split (cs : List Char) :
    (matchPort cs).1 ++ (matchPort cs).2 = cs := by
  unfold matchPort
  split
  · rfl
  · next c rest =>
    split
    · next hc =>
      split
      · rfl
      · simp [List.takeWhile_append_dropWhile]
    · rfl

theorem matchPath_split (cs : List Char) :
    (matchPath cs).1 ++ (matchPath cs).2 = cs := by
  unfold matchPath
  split
  · rfl
  · next c rest =>
    split
    · simp [List.takeWhile_append_dropWhile]
    · rfl

theorem matchCore_split {cs : List Char} {k : MatchKind} {m rest : List Char}
    (h : matchCore cs = some (k, m, rest)) :
    cs = m ++ rest ∧ m ≠ [] := by
  unfold matchCore at h
  cases h1 : matchBracket cs with
  | some p =>
    obtain ⟨m1, r1⟩ := p
    simp only [h1, Option.some.injEq, Prod.mk.injEq] at h
    obtain ⟨_, hm, hr⟩ := h
    subst hm; subst hr
    exact matchBracket_split h1
  | none =>
    simp only [h1] at h
    cases h2 : matchIPv4 cs with
    | some p =>
      obtain ⟨m1, r1⟩ := p
      simp only [h2, Option.some.injEq, Prod.mk.injEq] at h
      obtain ⟨_, hm, hr⟩ := h
      subst hm; subst hr
      exact matchIPv4_split h2
    | none =>
      simp only [h2] at h
      cases h3 : matchLabels cs with
      | some p =>
        obtain ⟨m1, r1⟩ := p
        simp only [h3, Option.some.injEq, Prod.mk.injEq] at h
        obtain ⟨_, hm, hr⟩ := h
        subst hm; subst hr
        exact matchLabels_split h3
      | none => simp [h3] at h

theorem matchAt_split {cs : List Char} {k : MatchKind} {m rest : List Char}
    (h : matchAt cs = some (k, m, rest)) :
    cs = m ++ rest ∧ m ≠ [] := by
  unfold matchAt at h
  cases h1 : matchScheme cs with
  | some p =>
    obtain ⟨m1, r1⟩ := p
    simp only [h1, Option.some.injEq, Prod.mk.injEq] at h
    obtain ⟨_, hm, hr⟩ := h
    subst hm; subst hr
    obtain ⟨e, n, _⟩ := matchScheme_split h1
    exact ⟨e, n⟩
  | none =>
    simp only [h1] at h
    cases h2 : matchCore cs with
    | none => simp [h2] at h
    | some p =>
      obtain ⟨k1, m1, r1⟩ := p
      simp only [h2, Option.some.injEq, Prod.mk.injEq] at h
      obtain ⟨hk, hm, hr⟩ := h
      subst hm; subst hr
      obtain ⟨e, n⟩ := matchCore_split h2
      constructor
      · rw [e]
        simp only [List.append_assoc]
        rw [matchPath_split, matchPort_split]
      · exact ne_nil_of_append_left n

/-! ## Occurrence of the extracted strings inside the text

`OccursInOrder ms cs` states that the lists in `ms` occur in `cs`, left to
right, as pairwise non-overlapping contiguous substrings.
-/

inductive OccursInOrder : List (List Char) → List Char → Prop where
  | nil (cs : List Char) : OccursInOrder [] cs
  | cons (m : List Char) (ms : List (List Char)) (rest : List Char) :
      OccursInOrder ms rest → OccursInOrder (m :: ms) (m ++ rest)
  | skip (c : Char) (ms : List (List Char)) (cs : List Char) :
      OccursInOrder ms cs → OccursInOrder ms (c :: cs)

theorem occ_prepend {ms : List (List Char)} {cs : List Char}
    (pre : List Char) (h : OccursInOrder ms cs) :
    OccursInOrder ms (pre ++ cs) := by
  induction pre with
  | nil => exact h
  | cons c t ih => exact OccursInOrder.skip c _ _ ih

theorem occ_sublist {ms : List (List Char)} {cs : List Char}
    (h : OccursInOrder ms cs) :
    ∀ ms', ms'.Sublist ms → OccursInOrder ms' cs := by
  induction h with
  | nil cs => intro ms' hs; rw [List.sublist_nil.mp hs]; exact .nil cs
  | cons m ms rest _ ih =>
    intro ms' hs
    cases hs with
    | cons _ hs' => exact occ_prepend m (ih _ hs')
    | cons₂ _ hs' => exact .cons m _ rest (ih _ hs')
  | skip c ms cs _ ih => intro ms' hs; exact .skip c _ _ (ih _ hs)

theorem trim_decomp (cs : List Char) :
    ∃ d, cs = trimPunctL cs ++ d := by
  refine ⟨(cs.reverse.takeWhile isTrimChar).reverse, ?_⟩
  conv_lhs => rw [← List.reverse_reverse cs,
    ← List.takeWhile_append_dropWhile isTrimChar cs.reverse]
  rw [List.reverse_append]
  rfl

theorem trimPunctL_idem (cs : List Char) :
    trimPunctL (trimPunctL cs) = trimPunctL cs := by
  unfold trimPunctL
  rw [List.reverse_reverse, dropWhile_idem]

theorem scanAux_occurs :
    ∀ (fuel : Nat) (cs : List Char),
      OccursInOrder ((scanAux fuel cs).map fun km => trimPunctL km.2) cs := by
  intro fuel
  induction fuel with
  | zero => intro cs; exact .nil cs
  | succ n ih =>
    intro cs
    cases h1 : matchAt cs with
    | some p =>
      obtain ⟨k, m, rest⟩ := p
      simp only [scanAux, h1, List.map_cons]
      obtain ⟨e, _⟩ := matchAt_split h1
      obtain ⟨d, hd⟩ := trim_decomp m
      have hocc : OccursInOrder
          (trimPunctL m :: (scanAux n rest).map fun km => trimPunctL km.2)
          ((trimPunctL m ++ d) ++ rest) := by
        rw [List.append_assoc]
        exact OccursInOrder.cons _ _ _ (occ_prepend d (ih rest))
      rw [← hd] at hocc
      rw [e]
      exact hocc
    | none =>
      simp only [scanAux, h1]
      cases cs with
      | nil => exact .nil []
      | cons c rest => exact .skip c _ _ (ih rest)

/-- The fold in `ExtractAll` is the filtered, trimmed match list. -/
theorem extractAll_eq (lib : Collab) (text : String) :
    ExtractAll lib text =
      ((findAllStrings text).map trimPunct).filter
        fun r => (ValidateDomain lib r).Valid := by
  unfold ExtractAll
  suffices h : ∀ (l : List String) (acc : List String),
      l.foldl
        (fun acc raw0 =>
          if (ValidateDomain lib (trimPunct raw0)).Valid then
            acc ++ [trimPunct raw0]
          else acc) acc
        = acc ++ (l.map trimPunct).filter fun r => (ValidateDomain lib r).Valid by
    simpa using h (findAllStrings text) []
  intro l
  induction l with
  | nil => intro acc; simp
  | cons x xs ih =>
    intro acc
    by_cases hv : (ValidateDomain lib (trimPunct x)).Valid = true
    · simp [hv, ih, List.filter_cons]
    · simp [hv, ih, List.filter_cons]

theorem all_filter_self (p : String → Bool) (l : List String) :
    (l.filter p).all p = true := by
  induction l with
  | nil => rfl
  | cons x xs ih =>
    by_cases h : p x = true
    · simp [List.filter_cons, h, ih]
    · simp [List.filter_cons, h, ih]

theorem map_data_trimmed (text : String) :
    (((findAllStrings text).map trimPunct).map String.data) =
      (scanTagged text).map fun km => trimPunctL km.2 := by
  unfold findAllStrings
  rw [List.map_map, List.map_map]
  rfl

/-! ## Shape of the matches produced by the individual alternatives -/

/-- The shape of one `(?:\.[a-zA-Z0-9][-a-zA-Z0-9]*)` group: a dot, a
label-initial character, then label-interior characters. -/
def DotLabelShape (l : List Char) : Prop :=
  ∃ b t, l = '.' :: b :: t ∧ isAlnumChar b = true ∧ t.all isHostChar = true

theorem matchDotLabel_shape {cs d r : List Char}
    (h : matchDotLabel cs = some (d, r)) : DotLabelShape d := by
  unfold matchDotLabel at h
  split at h
  · next a b rest0 =>
    split at h
    · next ha =>
      split at h
      · next hb =>
        simp only [Option.some.injEq, Prod.mk.injEq] at h
        obtain ⟨hm, _⟩ := h
        subst ha
        exact ⟨b, rest0.takeWhile isHostChar, hm.symm, hb, all_takeWhile _ _⟩
      · exact absurd h (by simp)
    · exact absurd h (by simp)
  · exact absurd h (by simp)

theorem matchDotLabels_shape :
    ∀ (fuel : Nat) (cs : List Char),
      ∃ ls : List (List Char),
        (matchDotLabels fuel cs).1 = ls.flatten ∧ ∀ l ∈ ls, DotLabelShape l := by
  intro fuel
  induction fuel with
  | zero =>
    intro cs
    exact ⟨[], rfl, fun l hl => absurd hl (List.not_mem_nil l)⟩
  | succ n ih =>
    intro cs
    cases h1 : matchDotLabel cs with
    | none =>
      simp only [matchDotLabels, h1]
      exact ⟨[], rfl, fun l hl => absurd hl (List.not_mem_nil l)⟩
    | some p =>
      obtain ⟨d, rest⟩ := p
      obtain ⟨ls, hjoin, hall⟩ := ih rest
      refine ⟨d :: ls, ?_, ?_⟩
      · simp [matchDotLabels, h1, hjoin]
      · intro l hl
        rcases List.mem_cons.mp hl with h' | h'
        · subst h'; exact matchDotLabel_shape h1
        · exact hall l h'

theorem matchLabels_shape {cs m rest : List Char}
    (h : matchLabels cs = some (m, rest)) :
    ∃ (c : Char) (run : List Char) (ls : List (List Char)),
      m = c :: (run ++ ls.flatten) ∧ isAlnumChar c = true ∧
      run.all isHostChar = true ∧ ls ≠ [] ∧ ∀ l ∈ ls, DotLabelShape l := by
  unfold matchLabels at h
  split at h
  · exact absurd h (by simp)
  · next c rest0 =>
    split at h
    · next hc =>
      split at h
      · exact absurd h (by simp)
      · next d r2 heq =>
        simp only [Option.some.injEq, Prod.mk.injEq] at h
        obtain ⟨hm, _⟩ := h
        obtain ⟨ls, hjoin, hall⟩ := matchDotLabels_shape r2.length r2
        refine ⟨c, rest0.takeWhile isHostChar, d :: ls, ?_, hc,
          all_takeWhile _ _, by simp, ?_⟩
        · rw [← hm]
          simp [hjoin]
        · intro l hl
          rcases List.mem_cons.mp hl with h' | h'
          · subst h'; exact matchDotLabel_shape heq
          · exact hall l h'
    · exact absurd h (by simp)

theorem matchCore_kind {cs : List Char} {k : MatchKind} {m rest : List Char}
    (h : matchCore cs = some (k, m, rest)) : k ≠ .scheme := by
  unfold matchCore at h
  cases h1 : matchBracket cs with
  | some p =>
    obtain ⟨m1, r1⟩ := p
    simp only [h1, Option.some.injEq, Prod.mk.injEq] at h
    obtain ⟨hk, _, _⟩ := h
    subst hk; decide
  | none =>
    simp only [h1] at h
    cases h2 : matchIPv4 cs with
    | some p =>
      obtain ⟨m1, r1⟩ := p
      simp only [h2, Option.some.injEq, Prod.mk.injEq] at h
      obtain ⟨hk, _, _⟩ := h
      subst hk; decide
    | none =>
      simp only [h2] at h
      cases h3 : matchLabels cs with
      | some p =>
        obtain ⟨m1, r1⟩ := p
        simp only [h3, Option.some.injEq, Prod.mk.injEq] at h
        obtain ⟨hk, _, _⟩ := h
        subst hk; decide
      | none => simp [h3] at h

theorem matchCore_labels {cs : List Char} {m rest : List Char}
    (h : matchCore cs = some (.labels, m, rest)) :
    matchLabels cs = some (m, rest) := by
  unfold matchCore at h
  cases h1 : matchBracket cs with
  | some p =>
    obtain ⟨m1, r1⟩ := p
    simp only [h1, Option.some.injEq, Prod.mk.injEq] at h
    obtain ⟨hk, _, _⟩ := h
    exact absurd hk (by decide)
  | none =>
    simp only [h1] at h
    cases h2 : matchIPv4 cs with
    | some p =>
      obtain ⟨m1, r1⟩ := p
      simp only [h2, Option.some.injEq, Prod.mk.injEq] at h
      obtain ⟨hk, _, _⟩ := h
      exact absurd hk (by decide)
    | none =>
      simp only [h2] at h
      cases h3 : matchLabels cs with
      | some p =>
        obtain ⟨m1, r1⟩ := p
        simp only [h3, Option.some.injEq, Prod.mk.injEq] at h
        obtain ⟨_, hm, hr⟩ := h
        subst hm; subst hr
        rfl
      | none => simp [h3] at h

theorem matchAt_scheme {cs : List Char} {m rest : List Char}
    (h : matchAt cs = some (.scheme, m, rest)) :
    matchScheme cs = some (m, rest) := by
  unfold matchAt at h
  cases h1 : matchScheme cs with
  | some p =>
    obtain ⟨m1, r1⟩ := p
    simp only [h1, Option.some.injEq, Prod.mk.injEq] at h
    obtain ⟨_, hm, hr⟩ := h
    subst hm; subst hr
    rfl
  | none =>
    simp only [h1] at h
    cases h2 : matchCore cs with
    | none => simp [h2] at h
    | some p =>
      obtain ⟨k1, m1, r1⟩ := p
      simp only [h2, Option.some.injEq, Prod.mk.injEq] at h
      obtain ⟨hk, _, _⟩ := h
      exact absurd hk (matchCore_kind h2)

theorem matchAt_labels {cs : List Char} {m rest : List Char}
    (h : matchAt cs = some (.labels, m, rest)) :
    ∃ mc r1, matchLabels cs = some (mc, r1) ∧
      m = mc ++ ((matchPort r1).1 ++ (matchPath (matchPort r1).2).1) := by
  unfold matchAt at h
  cases h1 : matchScheme cs with
  | some p =>
    obtain ⟨m1, r1⟩ := p
    simp only [h1, Option.some.injEq, Prod.mk.injEq] at h
    obtain ⟨hk, _, _⟩ := h
    exact absurd hk (by decide)
  | none =>
    simp only [h1] at h
    cases h2 : matchCore cs with
    | none => simp [h2] at h
    | some p =>
      obtain ⟨k1, m1, r1⟩ := p
      simp only [h2, Option.some.injEq, Prod.mk.injEq] at h
      obtain ⟨hk, hm, _⟩ := h
      subst hk
      exact ⟨m1, r1, matchCore_labels h2, hm.symm⟩

theorem matchPort_shape (cs : List Char) :
    (matchPort cs).1 = [] ∨
      ∃ ds, (matchPort cs).1 = ':' :: ds ∧ ds ≠ [] ∧ ds.all isDigitChar = true := by
  unfold matchPort
  split
  · exact Or.inl rfl
  · next c rest =>
    split
    · next hc =>
      split
      · exact Or.inl rfl
      · next hne =>
        refine Or.inr ⟨rest.takeWhile isDigitChar, by rw [hc], ?_, all_takeWhile _ _⟩
        intro h0
        rw [h0] at hne
        simp at hne
    · exact Or.inl rfl

theorem matchPath_shape (cs : List Char) :
    (matchPath cs).1 = [] ∨
      ∃ t, (matchPath cs).1 = '/' :: t ∧ t.all notWs = true := by
  unfold matchPath
  split
  · exact Or.inl rfl
  · next c rest =>
    split
    · next hc =>
      exact Or.inr ⟨rest.takeWhile notWs, by rw [hc], all_takeWhile _ _⟩
    · exact Or.inl rfl

theorem scanAux_mem :
    ∀ (fuel : Nat) (cs : List Char) (k : MatchKind) (m : List Char),
      (k, m) ∈ scanAux fuel cs →
      ∃ cs1 rest, matchAt cs1 = some (k, m, rest) := by
  intro fuel
  induction fuel with
  | zero => intro cs k m h; simp [scanAux] at h
  | succ n ih =>
    intro cs k m h
    cases h1 : matchAt cs with
    | some p =>
      obtain ⟨k1, m1, r1⟩ := p
      simp only [scanAux, h1] at h
      rcases List.mem_cons.mp h with he | ht
      · rw [Prod.mk.injEq] at he
        obtain ⟨hk, hm⟩ := he
        subst hk; subst hm
        exact ⟨cs, r1, h1⟩
      · exact ih r1 k m ht
    | none =>
      simp only [scanAux, h1] at h
      cases cs with
      | nil => simp at h
      | cons c rest => exact ih rest k m h

/-! ## Lemmas about the classifier -/

/-- The condition of the retry in lines 87-88 of the source: the first parse
failed or produced an empty host. -/
def firstParseBad (lib : Collab) (raw : String) : Bool :=
  match lib.parse raw with
  | .error _ => true
  | .ok u => u.host == ""

theorem parseWithRetry_of_bad {lib : Collab} {raw : String}
    (h : firstParseBad lib raw = true) :
    parseWithRetry lib raw = lib.parse ("http://" ++ raw) := by
  unfold firstParseBad at h
  unfold parseWithRetry
  cases hp : lib.parse raw with
  | error e => simp [hp]
  | ok u =>
    simp only [hp] at h ⊢
    have h' : u.host = "" := by simpa using h
    simp [h']

theorem parseWithRetry_of_good {lib : Collab} {raw : String}
    (h : firstParseBad lib raw = false) :
    ∃ u, lib.parse raw = .ok u ∧ u.host ≠ "" ∧ parseWithRetry lib raw = .ok u := by
  unfold firstParseBad at h
  unfold parseWithRetry
  cases hp : lib.parse raw with
  | error e => simp [hp] at h
  | ok u =>
    simp only [hp] at h ⊢
    have h' : ¬u.host = "" := by simpa using h
    exact ⟨u, rfl, h', by rw [if_neg h']⟩

/-- Whether the second string starts with the first. -/
def strHasPre (p s : String) : Bool := isPreL p.data s.data

theorem strHasPre_append (p e : String) : strHasPre p (p ++ e) = true := by
  unfold strHasPre
  rw [String.data_append]
  exact isPreL_append _ _

/-- The five shapes a result of the suffix walk can take, read off the five
return statements of `validateDomainName`. -/
theorem vdn_shape (lib : Collab) (u : GoURL) :
    validateDomainName lib u = ⟨false, "empty hostname", .invalid, "", none⟩ ∨
    validateDomainName lib u = ⟨false, "no valid TLD found", .invalid, "", none⟩ ∨
    (∃ t, validateDomainName lib u = ⟨true, "valid ICANN domain", .icann, t, some u⟩) ∨
    (∃ t, validateDomainName lib u =
      ⟨true, "valid domain built on ICANN TLD", .nonICANN, t, some u⟩) ∨
    (∃ t, validateDomainName lib u =
      ⟨false, "invalid or non-ICANN TLD", .invalid, t, none⟩) := by
  unfold validateDomainName
  split
  · exact Or.inl rfl
  · split
    · exact Or.inr (Or.inl rfl)
    · split
      · exact Or.inr (Or.inl rfl)
      · split
        · exact Or.inr (Or.inr (Or.inl ⟨_, rfl⟩))
        · split
          · split
            · exact Or.inr (Or.inr (Or.inr (Or.inl ⟨_, rfl⟩)))
            · exact Or.inr (Or.inr (Or.inr (Or.inr ⟨_, rfl⟩)))
          · exact Or.inr (Or.inr (Or.inr (Or.inr ⟨_, rfl⟩)))

deriving instance DecidableEq for Except

/-! ## The claims -/

/-- C9: for every collaborator behaviour and every input string, the
returned category is Invalid exactly when the verdict is invalid; the three
remaining categories pair only with a true verdict. -/
theorem c9_invalid_iff_not_valid (lib : Collab) (raw : String) :
    (ValidateDomain lib raw).Typ = URLType.invalid ↔
      (ValidateDomain lib raw).Valid = false := by
  cases hp : parseWithRetry lib raw with
  | error e =>
    unfold ValidateDomain
    simp only [hp]
  | ok u =>
    unfold ValidateDomain
    simp only [hp]
    cases hip : lib.parseIP u.hostname with
    | some t => simp only [hip]; simp
    | none =>
      simp only [hip]
      rcases vdn_shape lib u with h | h | ⟨t, h⟩ | ⟨t, h⟩ | ⟨t, h⟩ <;>
        rw [h] <;> simp

/-- C7 (amended): the URL field of the result is populated exactly when the
verdict is valid - it is left unset on every invalid result, including
rejections whose structural parse succeeded. -/
theorem c7_url_iff_valid (lib : Collab) (raw : String) :
    (ValidateDomain lib raw).URL.isSome = (ValidateDomain lib raw).Valid := by
  cases hp : parseWithRetry lib raw with
  | error e =>
    unfold ValidateDomain
    simp only [hp]
    simp
  | ok u =>
    unfold ValidateDomain
    simp only [hp]
    cases hip : lib.parseIP u.hostname with
    | some t => simp only [hip]; simp
    | none =>
      simp only [hip]
      rcases vdn_shape lib u with h | h | ⟨t, h⟩ | ⟨t, h⟩ | ⟨t, h⟩ <;>
        rw [h] <;> simp

/-- C7 (counterexample): for the input `justtext` the structural parse
succeeds (after the `http://` retry), yet the result is invalid and its URL
field is not populated - parse failure is not the only situation in which
the URL field is absent. -/
theorem c7_counterexample :
    parseWithRetry goLib "justtext" = Except.ok ⟨"http", "justtext", ""⟩ ∧
    (ValidateDomain goLib "justtext").Reason = "no valid TLD found" ∧
    (ValidateDomain goLib "justtext").URL = none := by
  refine ⟨by decide, by decide, by decide⟩

/-- C3: for every collaborator behaviour, whenever the (possibly retried)
parse succeeds and the IP recognizer accepts the parsed hostname - whatever
trailing port or path the candidate carried - the result is a valid
IPAddress verdict whose TLD field is the recognizer's canonical text and
whose URL field is populated. -/
theorem c3_ip_literal (lib : Collab) (raw : String) (u : GoURL) (t : String)
    (hp : parseWithRetry lib raw = Except.ok u)
    (hip : lib.parseIP u.hostname = some t) :
    ValidateDomain lib raw = ⟨true, "valid IP address", .ip, t, some u⟩ := by
  unfold ValidateDomain
  simp only [hp, hip]

/-- C3 (witness): `192.168.1.1:8080` - an IPv4 literal with a trailing
port - is classified as a valid IP address with the canonical IP text in
the TLD field. -/
theorem c3_ip_literal_witness :
    parseWithRetry goLib "192.168.1.1:8080" =
      Except.ok ⟨"http", "192.168.1.1:8080", ""⟩ ∧
    goLib.parseIP (GoURL.hostname ⟨"http", "192.168.1.1:8080", ""⟩) =
      some "192.168.1.1" ∧
    ValidateDomain goLib "192.168.1.1:8080" =
      ⟨true, "valid IP address", .ip, "192.168.1.1",
        some ⟨"http", "192.168.1.1:8080", ""⟩⟩ := by
  refine ⟨by decide, by decide, ?_⟩
  exact c3_ip_literal goLib "192.168.1.1:8080" ⟨"http", "192.168.1.1:8080", ""⟩
    "192.168.1.1" (by decide) (by decide)

/-- C4: for every collaborator behaviour and every input, the result's
reason starts with `parse error: ` exactly when the first parse failed or
produced an empty host and the retried parse (with `http://` prepended)
failed as well; in that case the result embeds the parser's message and is
Invalid.  `ValidateDomain` is a total function - every input yields a
`ValidationResult`, never an exception. -/
theorem c4_parse_error_exactly (lib : Collab) (raw : String) :
    (strHasPre "parse error: " (ValidateDomain lib raw).Reason = true ↔
      (firstParseBad lib raw = true ∧
        ∃ e, lib.parse ("http://" ++ raw) = Except.error e)) ∧
    (∀ e, firstParseBad lib raw = true →
      lib.parse ("http://" ++ raw) = Except.error e →
      ValidateDomain lib raw =
        ⟨false, "parse error: " ++ e, .invalid, "", none⟩) := by
  by_cases hb : firstParseBad lib raw = true
  · have hr := parseWithRetry_of_bad hb
    cases hp2 : lib.parse ("http://" ++ raw) with
    | error e =>
      rw [hp2] at hr
      constructor
      · constructor
        · intro _
          exact ⟨hb, e, rfl⟩
        · intro _
          unfold ValidateDomain
          simp only [hr]
          exact strHasPre_append _ _
      · intro e' _ he'
        injection he' with hee
        subst hee
        unfold ValidateDomain
        simp only [hr]
    | ok u =>
      rw [hp2] at hr
      constructor
      · constructor
        · intro hpre
          exfalso
          unfold ValidateDomain at hpre
          simp only [hr] at hpre
          cases hip : lib.parseIP u.hostname with
          | some t =>
            simp only [hip] at hpre
            exact absurd hpre (by decide)
          | none =>
            simp only [hip] at hpre
            rcases vdn_shape lib u with h | h | ⟨t, h⟩ | ⟨t, h⟩ | ⟨t, h⟩ <;>
              rw [h] at hpre <;> dsimp only at hpre <;>
              exact absurd hpre (by decide)
        · rintro ⟨_, e, he⟩
          exact absurd he (by simp)
      · intro e _ he
        exact absurd he (by simp)
  · have hb' : firstParseBad lib raw = false := by simpa using hb
    obtain ⟨u, _, _, hr⟩ := parseWithRetry_of_good hb'
    constructor
    · constructor
      · intro hpre
        exfalso
        unfold ValidateDomain at hpre
        simp only [hr] at hpre
        cases hip : lib.parseIP u.hostname with
        | some t =>
          simp only [hip] at hpre
          exact absurd hpre (by decide)
        | none =>
          simp only [hip] at hpre
          rcases vdn_shape lib u with h | h | ⟨t, h⟩ | ⟨t, h⟩ | ⟨t, h⟩ <;>
            rw [h] at hpre <;> dsimp only at hpre <;>
            exact absurd hpre (by decide)
      · rintro ⟨hbt, _⟩
        exact absurd hbt hb
    · intro e hbt _
      exact absurd hbt hb

/-- C4 (witness): the control character `U+0000` makes both the direct
parse and the `http://`-prepended retry fail, and the result embeds the
parser's message after `parse error: `. -/
theorem c4_parse_error_witness :
    firstParseBad goLib "\x00" = true ∧
    goLib.parse ("http://" ++ "\x00") =
      Except.error "net/url: invalid control character in URL" ∧
    ValidateDomain goLib "\x00" =
      ⟨false, "parse error: " ++ "net/url: invalid control character in URL",
        .invalid, "", none⟩ := by
  refine ⟨by decide, by decide, ?_⟩
  exact (c4_parse_error_exactly goLib "\x00").2
    "net/url: invalid control character in URL" (by decide) (by decide)

/-- C1: for every collaborator behaviour, a candidate whose host reaches
the suffix walk (parse succeeded, not an IP) and whose longest suffix
lookup returns a nonempty non-ICANN suffix is settled by the two-stage
probe: if the suffix has an internal dot and the probe host
`test.<rightmost label>` reports ICANN, the result is a valid NonICANN
verdict with the suffix in the TLD field; if the probe reports non-ICANN,
or the suffix has no internal dot, the result is invalid with reason
`invalid or non-ICANN TLD` and the rejected suffix still in the TLD
field. -/
theorem c1_non_icann_probe (lib : Collab) (raw : String) (u : GoURL)
    (suffix : String)
    (hp : parseWithRetry lib raw = Except.ok u)
    (hip : lib.parseIP u.hostname = none)
    (hne : u.hostname ≠ "")
    (hdot : u.hostname.data.contains '.' = true)
    (hps : lib.publicSuffix u.hostname = (suffix, false))
    (hsne : suffix ≠ "") :
    (suffix.data.contains '.' = true →
      (lib.publicSuffix ("test." ++
        (⟨(splitOnChar '.' suffix.data).getLastD []⟩ : String))).2 = true →
      ValidateDomain lib raw =
        ⟨true, "valid domain built on ICANN TLD", .nonICANN, suffix, some u⟩) ∧
    (suffix.data.contains '.' = true →
      (lib.publicSuffix ("test." ++
        (⟨(splitOnChar '.' suffix.data).getLastD []⟩ : String))).2 = false →
      ValidateDomain lib raw =
        ⟨false, "invalid or non-ICANN TLD", .invalid, suffix, none⟩) ∧
    (suffix.data.contains '.' = false →
      ValidateDomain lib raw =
        ⟨false, "invalid or non-ICANN TLD", .invalid, suffix, none⟩) := by
  unfold ValidateDomain
  simp only [hp, hip]
  unfold validateDomainName
  simp only [hps, hdot]
  rw [if_neg hne, if_neg (show ¬((!true) = true) by decide), if_neg hsne,
    if_neg (show ¬(false = true) by decide)]
  refine ⟨?_, ?_, ?_⟩
  · intro h1 h2
    rw [if_pos h1, if_pos h2]
  · intro h1 h2
    rw [if_pos h1, if_neg (by simpa using h2)]
  · intro h1
    rw [if_neg (by simpa using h1)]

/-- C1 (witness): `foo.dyndns.org` - the lookup returns the private suffix
`dyndns.org`, the probe `test.org` is ICANN-delegated, and the domain is
accepted as a NonICANN domain built on an ICANN TLD. -/
theorem c1_non_icann_probe_witness :
    goLib.publicSuffix
        (GoURL.hostname ⟨"http", "foo.dyndns.org", ""⟩) =
      ("dyndns.org", false) ∧
    (goLib.publicSuffix ("test." ++
      (⟨(splitOnChar '.' ("dyndns.org" : String).data).getLastD []⟩ :
        String))).2 = true ∧
    ValidateDomain goLib "foo.dyndns.org" =
      ⟨true, "valid domain built on ICANN TLD", .nonICANN, "dyndns.org",
        some ⟨"http", "foo.dyndns.org", ""⟩⟩ := by
  refine ⟨by decide, by decide, ?_⟩
  exact (c1_non_icann_probe goLib "foo.dyndns.org"
    ⟨"http", "foo.dyndns.org", ""⟩ "dyndns.org"
    (by decide) (by decide) (by decide) (by decide) (by decide) (by decide)).1
    (by decide) (by decide)

/-- C10: for every collaborator behaviour in which parsing the empty string
triggers the retry, the retry parses `http://` successfully with an empty
host, and the IP recognizer rejects the empty hostname, `ValidateDomain ""`
returns the `empty hostname` rejection (not a parse error), with empty TLD
and no URL. -/
theorem c10_empty_string (lib : Collab) (u : GoURL)
    (h1 : firstParseBad lib "" = true)
    (h2 : lib.parse ("http://" ++ "") = Except.ok u)
    (h3 : u.host = "")
    (hip : lib.parseIP "" = none) :
    ValidateDomain lib "" = ⟨false, "empty hostname", .invalid, "", none⟩ := by
  have hr := parseWithRetry_of_bad h1
  rw [h2] at hr
  have hh : u.hostname = "" := by
    unfold GoURL.hostname
    rw [h3]
    decide
  unfold ValidateDomain
  simp only [hr, hh, hip]
  unfold validateDomainName
  rw [hh]
  simp

/-- C10 (witness): with the modelled collaborators the empty string indeed
takes the retry path and is rejected as `empty hostname`. -/
theorem c10_empty_string_witness :
    ValidateDomain goLib "" = ⟨false, "empty hostname", .invalid, "", none⟩ :=
  c10_empty_string goLib ⟨"http", "", ""⟩ (by decide) (by decide) (by decide)
    (by decide)

/-- C8: the fold in `ExtractAll` classifies and returns exactly the trimmed
matches (trailing `.`, `,`, `)` stripped); the trim is idempotent; and the
spec's example `visit example.com.` yields the clean candidate
`example.com`. -/
theorem c8_trailing_trim (lib : Collab) (text : String) (s : String) :
    ExtractAll lib text =
      ((findAllStrings text).map trimPunct).filter
        (fun r => (ValidateDomain lib r).Valid) ∧
    trimPunct (trimPunct s) = trimPunct s ∧
    ExtractAll goLib "visit example.com." = ["example.com"] := by
  refine ⟨extractAll_eq lib text, ?_, by decide⟩
  simp [trimPunct, trimPunctL_idem]

/-- C2: every string returned by `ExtractAll` occurs literally in the input
text, the returned strings appear in left-to-right order as non-overlapping
substrings, every returned string is judged valid by `ValidateDomain`, and
when every (trimmed) candidate is judged invalid the result is the empty
sequence. -/
theorem c2_extract_sound (lib : Collab) (text : String) :
    OccursInOrder ((ExtractAll lib text).map String.data) text.data ∧
    (ExtractAll lib text).all (fun s => (ValidateDomain lib s).Valid) = true ∧
    (((findAllStrings text).all
        fun r => !(ValidateDomain lib (trimPunct r)).Valid) = true →
      ExtractAll lib text = []) := by
  refine ⟨?_, ?_, ?_⟩
  · rw [extractAll_eq]
    have hocc : OccursInOrder
        ((scanTagged text).map fun km => trimPunctL km.2) text.data :=
      scanAux_occurs text.data.length text.data
    have hsub : ((((findAllStrings text).map trimPunct).filter
        (fun r => (ValidateDomain lib r).Valid)).map String.data).Sublist
        (((findAllStrings text).map trimPunct).map String.data) :=
      (List.filter_sublist _).map _
    rw [map_data_trimmed] at hsub
    exact occ_sublist hocc _ hsub
  · rw [extractAll_eq]
    exact all_filter_self _ _
  · intro hall
    rw [extractAll_eq]
    rw [List.filter_eq_nil_iff]
    intro a ha
    rw [List.mem_map] at ha
    obtain ⟨r, hr, hra⟩ := ha
    subst hra
    have hv := List.all_eq_true.mp hall r hr
    simp only [Bool.not_eq_true'] at hv
    simp [hv]

/-- C2 (witness): a text with no candidates at all yields the empty
sequence. -/
theorem c2_extract_sound_witness :
    ExtractAll goLib "no candidates here" = [] :=
  (c2_extract_sound goLib "no candidates here").2.2 (by decide)

/-- C5 (counterexample): scheme matching is case-sensitive.
`HTTP://example.com` is not matched as one scheme-prefixed token: only its
host part `example.com` is matched and returned, unlike the lowercase
input, whose full text is returned. -/
theorem c5_counterexample :
    ExtractAll goLib "HTTP://example.com" = ["example.com"] ∧
    ExtractAll goLib "http://example.com" = ["http://example.com"] ∧
    ExtractAll goLib "HTTP://example.com" ≠ ["HTTP://example.com"] := by
  refine ⟨by decide, by decide, by decide⟩

/-- C5 (amended): the matcher recognises a scheme-prefixed candidate only
with the literal lowercase `http://` or `https://` - every scheme-kind
match begins with one of those two literals.  An uppercase-scheme input is
instead matched from its host part onward (with the casing of the matched
part preserved verbatim), and that host part validates on its own. -/
theorem c5_scheme_case_sensitive :
    (∀ (text : String) (m : List Char),
      (MatchKind.scheme, m) ∈ scanTagged text →
      isPreL schemeHttp m = true ∨ isPreL schemeHttps m = true) ∧
    ExtractAll goLib "HTTP://example.com" = ["example.com"] ∧
    ValidateDomain goLib "example.com" =
      ⟨true, "valid ICANN domain", .icann, "com",
        some ⟨"http", "example.com", ""⟩⟩ := by
  refine ⟨?_, by decide, by decide⟩
  intro text m hm
  obtain ⟨cs1, rest, hat⟩ := scanAux_mem _ _ _ _ hm
  obtain ⟨_, _, hpre⟩ := matchScheme_split (matchAt_scheme hat)
  exact hpre

/-- C5 (amended, witness): the lowercase input `http://a.b` produces a
scheme-kind match, and it begins with a lowercase scheme literal. -/
theorem c5_scheme_case_sensitive_witness :
    isPreL schemeHttp "http://a.b".data = true ∨
      isPreL schemeHttps "http://a.b".data = true :=
  c5_scheme_case_sensitive.1 "http://a.b" "http://a.b".data (by decide)

/-- C6 (counterexample): the bare-host pattern is ASCII-only and allows a
label to end with a hyphen: the text `a.b-` is produced verbatim as a
bare-host candidate - its final label ends with `-`, not an alphanumeric -
while the dotted Unicode host `книга.рф` yields no candidate at all, so
Unicode letters are not permitted inside bare-host labels. -/
theorem c6_counterexample :
    findAllStrings "a.b-" = ["a.b-"] ∧
    isSufL ['-'] "a.b-".data = true ∧
    findAllStrings "книга.рф" = [] := by
  refine ⟨by decide, by decide, by decide⟩

/-- C6 (amended): every bare-host (label-sequence) candidate splits into a
label core followed by the optional port and path groups, where the core is
an ASCII alphanumeric character, a run of ASCII alphanumeric-or-hyphen
characters, and one or more dot-label groups (a dot, an ASCII alphanumeric,
then a run of ASCII alphanumeric-or-hyphen characters - so a label may end
in a hyphen, and no Unicode letters occur); the core always contains an
internal dot, so a token without a dot is never produced as a bare-host
candidate. -/
theorem c6_labels_shape (text : String) (m : List Char)
    (hm : (MatchKind.labels, m) ∈ scanTagged text) :
    ∃ (c : Char) (run : List Char) (ls : List (List Char)) (p q : List Char),
      m = (c :: (run ++ ls.flatten)) ++ (p ++ q) ∧
      isAlnumChar c = true ∧ run.all isHostChar = true ∧
      ls ≠ [] ∧ (∀ l ∈ ls, DotLabelShape l) ∧
      '.' ∈ c :: (run ++ ls.flatten) ∧
      (p = [] ∨ ∃ ds, p = ':' :: ds ∧ ds ≠ [] ∧ ds.all isDigitChar = true) ∧
      (q = [] ∨ ∃ t, q = '/' :: t ∧ t.all notWs = true) := by
  obtain ⟨cs1, rest, hat⟩ := scanAux_mem _ _ _ _ hm
  obtain ⟨mc, r1, hml, hmm⟩ := matchAt_labels hat
  obtain ⟨c, run, ls, hcore, hc, hrun, hlsne, hshape⟩ := matchLabels_shape hml
  refine ⟨c, run, ls, (matchPort r1).1, (matchPath (matchPort r1).2).1,
    ?_, hc, hrun, hlsne, hshape, ?_, matchPort_shape r1, matchPath_shape _⟩
  · rw [hmm, hcore]
  · cases ls with
    | nil => exact absurd rfl hlsne
    | cons l0 lt =>
      obtain ⟨b, t, hl0, _, _⟩ := hshape l0 (List.mem_cons_self _ _)
      subst hl0
      simp

/-- C6 (amended, witness): the candidate produced from `foo.bar` has the
stated label-core shape. -/
theorem c6_labels_shape_witness :
    ∃ (c : Char) (run : List Char) (ls : List (List Char)) (p q : List Char),
      "foo.bar".data = (c :: (run ++ ls.flatten)) ++ (p ++ q) ∧
      isAlnumChar c = true ∧ run.all isHostChar = true ∧
      ls ≠ [] ∧ (∀ l ∈ ls, DotLabelShape l) ∧
      '.' ∈ c :: (run ++ ls.flatten) ∧
      (p = [] ∨ ∃ ds, p = ':' :: ds ∧ ds ≠ [] ∧ ds.all isDigitChar = true) ∧
      (q = [] ∨ ∃ t, q = '/' :: t ∧ t.all notWs = true) :=
  c6_labels_shape "foo.bar" "foo.bar".data (by decide)
